import Mathlib

/-!
# Verification of the `tools.go.monitoring` sampling engine

A shallow embedding, in Lean 4, of the core of the Go monitoring tools
(cpustat, netstat, vmstat, linescount): the field/line schema registry, the
snapshot parser, the derived-field calculators, the diff/relative engine and
the poll scheduler's emission logic, together with theorems about the
documented behaviour of these components.

Machine integers: the tools store every counter in Go's `uint`, which is
64 bits wide on the targeted platforms (the build script cross-compiles with
`GOARCH=amd64`).  We model `uint` values as `Nat` and make the wraparound of
the arithmetic operations explicit via `% 2^64`.

Strings: the parsers work on whole input lines.  We model a Go string/byte
slice as a `List Char` and re-implement the few library routines the code
uses (`strings.Fields`, `strings.SplitN(s, " ", 2)[0]`, `strings.Contains`,
`strconv.ParseUint(s, 10, 0)`) by structural recursion so that every
definition evaluates inside the kernel.

Fallible code (`parse` returning `error`, runtime panics such as division by
zero or an out-of-range slice write) is modelled with `Except`/`Option`.
-/

deriving instance DecidableEq for Except

namespace Monitoring

/-- Modulus of Go's `uint` type on the targeted 64-bit platforms. -/
def U64 : Nat := 2 ^ 64

/-- Go unsigned subtraction `a - b`: wraps modulo `2^64`
(`diffRecord.fields[i] = field - prevRecord.fields[i]`). -/
def goUintSub (a b : Nat) : Nat := (a % U64 + (U64 - b % U64)) % U64

/-- Go unsigned addition (the `total += fields[i]` accumulation). -/
def goUintAdd (a b : Nat) : Nat := (a % U64 + b % U64) % U64

/-- Go unsigned multiplication (`fields[i] * 100`, `clkTck * nprocs`). -/
def goUintMul (a b : Nat) : Nat := (a % U64 * (b % U64)) % U64

/-- The white-space bytes recognised by Go's `unicode.IsSpace` in the
Latin-1 range; `strings.Fields` splits its input around runs of these. -/
def goIsSpace (c : Char) : Bool :=
  c = ' ' || c = '\t' || c = '\n' || c = '\x0b' || c = '\x0c' || c = '\r' ||
  c = '\x85' || c = '\xa0'

/-- Helper for `goFields`: `acc` is the current token, reversed. -/
def goFieldsAux : List Char → List Char → List (List Char)
  | [], acc => if acc = [] then [] else [acc.reverse]
  | c :: cs, acc =>
    if goIsSpace c then
      if acc = [] then goFieldsAux cs [] else acc.reverse :: goFieldsAux cs []
    else goFieldsAux cs (c :: acc)

/-- `strings.Fields(line)`: the white-space-delimited tokens of a line. -/
def goFields (l : List Char) : List (List Char) := goFieldsAux l []

/-- The numeric value of a decimal digit character, if it is one. -/
def digitVal (c : Char) : Option Nat :=
  if '0' ≤ c ∧ c ≤ '9' then some (c.toNat - '0'.toNat) else none

/-- Accumulating loop of `goParseUint`. -/
def parseUintAux : List Char → Nat → Option Nat
  | [], acc => some acc
  | c :: cs, acc =>
    match digitVal c with
    | none => none
    | some d => parseUintAux cs (acc * 10 + d)

/-- `strconv.ParseUint(s, 10, 0)`: base-10, no sign, empty input and
non-digit characters are syntax errors, values `≥ 2^64` are range errors
(`bitSize 0` selects the 64-bit `uint` of the target platforms). -/
def goParseUint (l : List Char) : Option Nat :=
  match l with
  | [] => none
  | _ :: _ =>
    match parseUintAux l 0 with
    | none => none
    | some n => if n < U64 then some n else none

/-- `fieldDef` (category, name, accumulator flag).  The optional
`calculator` function pointer of the Go struct is not stored here: each
variant's calculators are applied explicitly by its `recordParse`. -/
structure FieldDef where
  category : String
  name : String
  isAccumulator : Bool
deriving DecidableEq

/-- `fieldDef.String()`: the header text of a field,
`category:name/a` for accumulators and `category:name/i` otherwise. -/
def FieldDef.render (fd : FieldDef) : String :=
  if fd.isAccumulator then fd.category ++ ":" ++ fd.name ++ "/a"
  else fd.category ++ ":" ++ fd.name ++ "/i"

/-- The common body of `Record.diff` (cpustat and netstat have the same
per-field loop): an accumulator slot becomes `cur - prev` in wrapping
unsigned arithmetic, an instantaneous slot passes `cur` through. -/
def diffFields : List FieldDef → List Nat → List Nat → List Nat
  | fd :: fds, c :: cs, p :: ps =>
    (if fd.isAccumulator then goUintSub c p else c) :: diffFields fds cs ps
  | _, _, _ => []

/-- `strings.Join(h, " ")`: the serialised form of a header. -/
def goJoin : List String → List Char
  | [] => []
  | [s] => s.toList
  | s :: rest => s.toList ++ ' ' :: goJoin rest

end Monitoring

namespace Monitoring.Cpustat

/-!
## `src/internal/cpustat/cpustat.go` (the richest variant)
Field slot indices, exactly the `iota` block of the source. -/

def procsForksIdx : Nat := 0
def procsRunningIdx : Nat := 1
def procsBlockedIdx : Nat := 2
def intrTotalIdx : Nat := 3
def ctxtTotalIdx : Nat := 4
def cpuMaxIdx : Nat := 5
def cpuTotalIdx : Nat := 6
def cpuUserIdx : Nat := 7
def cpuNiceIdx : Nat := 8
def cpuSystemIdx : Nat := 9
def cpuIdleIdx : Nat := 10
def cpuIowaitIdx : Nat := 11
def cpuIrqIdx : Nat := 12
def cpuSoftIrqIdx : Nat := 13
def cpuStealIdx : Nat := 14
def cpuGuestIdx : Nat := 15
def cpuGuestNiceIdx : Nat := 16
def fieldsCount : Nat := 17

/-- The slots summed into `cpu:total` (guest and guest_nice are excluded:
they are already folded into user and nice time). -/
def cpuIndicesForTotal : List Nat :=
  [cpuUserIdx, cpuNiceIdx, cpuSystemIdx, cpuIdleIdx, cpuIowaitIdx,
   cpuIrqIdx, cpuSoftIrqIdx, cpuStealIdx]

/-- The ten per-state cpu slots (the `cpu` line of `/proc/stat`, and the
slots rewritten by the relative transform). -/
def cpuIndices : List Nat :=
  [cpuUserIdx, cpuNiceIdx, cpuSystemIdx, cpuIdleIdx, cpuIowaitIdx,
   cpuIrqIdx, cpuSoftIrqIdx, cpuStealIdx, cpuGuestIdx, cpuGuestNiceIdx]

/-- `allFieldsDefs` of the internal cpustat variant, in declaration order. -/
def allFieldsDefs : List FieldDef :=
  [⟨"procs", "forks", true⟩, ⟨"procs", "running", false⟩,
   ⟨"procs", "blocked", false⟩, ⟨"intr", "total", true⟩,
   ⟨"ctxt", "total", true⟩, ⟨"cpu", "max", false⟩, ⟨"cpu", "total", true⟩,
   ⟨"cpu", "user", true⟩, ⟨"cpu", "nice", true⟩, ⟨"cpu", "system", true⟩,
   ⟨"cpu", "idle", true⟩, ⟨"cpu", "iowait", true⟩, ⟨"cpu", "irq", true⟩,
   ⟨"cpu", "softirq", true⟩, ⟨"cpu", "steal", true⟩, ⟨"cpu", "guest", true⟩,
   ⟨"cpu", "guest_nice", true⟩]

/-- `maxCpuCalculator`: `clkTck * nprocs` (the startup-configuration
globals are passed explicitly; the field vector is ignored). -/
def maxCpuCalculator (clkTck nprocs : Nat) (_fields : List Nat) : Nat :=
  goUintMul clkTck nprocs

/-- `totalCpuCalculator`: wrapping sum of the `cpuIndicesForTotal` slots. -/
def totalCpuCalculator (fields : List Nat) : Nat :=
  cpuIndicesForTotal.foldl (fun total i => goUintAdd total (fields.getD i 0)) 0

/-- `lineDef`: a recognised line prefix and the slots its tokens fill. -/
structure GoLineDef where
  pfx : List Char
  fieldsIdx : List Nat
deriving DecidableEq

/-- The `linesDefs` registry built by `init` (`addLineDef` calls). -/
def linesDefs : List GoLineDef :=
  [⟨"cpu".toList, cpuIndices⟩,
   ⟨"intr".toList, [intrTotalIdx]⟩,
   ⟨"ctxt".toList, [ctxtTotalIdx]⟩,
   ⟨"processes".toList, [procsForksIdx]⟩,
   ⟨"procs_running".toList, [procsRunningIdx]⟩,
   ⟨"procs_blocked".toList, [procsBlockedIdx]⟩]

/-- Exact-match lookup in the `linesDefs` map. -/
def lookupLineDef (p : List Char) : Option GoLineDef :=
  linesDefs.find? (fun d => d.pfx == p)

/-- `strings.SplitN(line, " ", 2)[0]`: the characters before the first
space (used by `parse` to dispatch a line to its `lineDef`). -/
def linePrefixOf (line : List Char) : List Char :=
  line.takeWhile (fun c => !(c == ' '))

/-- The token loop of `parseLineToFields`: the `i`-th declared slot is
filled from the `i`-th token after the prefix; if the tokens run out first
the loop stops early with no error (`if i+1 >= len(fields) { return }`);
a token that fails `ParseUint` aborts with that error. -/
def fillFields : List Nat → List (List Char) → List Nat → Except String (List Nat)
  | [], _, target => .ok target
  | _ :: _, [], target => .ok target
  | j :: js, tok :: toks, target =>
    match goParseUint tok with
    | none => .error "invalid syntax"
    | some v => fillFields js toks (target.set j v)

/-- `parseLineToFields`: check the prefix token, then fill the declared
slots.  `strings.Fields` of an empty line would make `fields[0]` panic in
Go; that (unreachable from `parse`) case is modelled as an error. -/
def parseLineToFields (ld : GoLineDef) (line : List Char) (target : List Nat) :
    Except String (List Nat) :=
  match goFields line with
  | [] => .error "panic: index out of range"
  | tok0 :: toks =>
    if tok0 = ld.pfx then fillFields ld.fieldsIdx toks target
    else .error "not a matching line"

/-- The line loop of `Record.parse`: lines whose prefix is not registered
are skipped silently; the first failing `parseLineToFields` aborts the
whole snapshot. -/
def scanLines : List (List Char) → List Nat → Except String (List Nat)
  | [], target => .ok target
  | line :: rest, target =>
    match lookupLineDef (linePrefixOf line) with
    | none => scanLines rest target
    | some ld =>
      match parseLineToFields ld line target with
      | .error e => .error e
      | .ok t2 => scanLines rest t2

/-- The calculator pass at the end of `Record.parse`: iterate
`allFieldsDefs` in order and overwrite each slot that has a calculator
(`cpu:max` at index 5, then `cpu:total` at index 6). -/
def applyCalculators (clkTck nprocs : Nat) (fields : List Nat) : List Nat :=
  let f1 := fields.set cpuMaxIdx (maxCpuCalculator clkTck nprocs fields)
  f1.set cpuTotalIdx (totalCpuCalculator f1)

/-- `Record.parse`, given the snapshot's lines: zero the field vector,
scan the lines, then run the calculators.  Any error aborts the snapshot
before the calculator pass. -/
def recordParse (clkTck nprocs : Nat) (lines : List (List Char)) :
    Except String (List Nat) :=
  match scanLines lines (List.replicate fieldsCount 0) with
  | .error e => .error e
  | .ok raw => .ok (applyCalculators clkTck nprocs raw)

/-- The loop of `Record.rel`: for each per-state cpu slot whose value is
non-zero, replace it by `value * 100 / totalDelta` (Go `uint` arithmetic:
the product wraps, and the division panics when `fields[cpuTotalIdx]` is
zero — modelled as `none`). -/
def relLoop : List Nat → List Nat → Option (List Nat)
  | [], fields => some fields
  | i :: is, fields =>
    if fields.getD i 0 ≠ 0 then
      if fields.getD cpuTotalIdx 0 = 0 then none
      else
        relLoop is
          (fields.set i (goUintMul (fields.getD i 0) 100 / fields.getD cpuTotalIdx 0))
    else relLoop is fields

/-- `Record.rel` of the internal cpustat variant. -/
def rel (fields : List Nat) : Option (List Nat) := relLoop cpuIndices fields

/-- `Record.diff` of cpustat (per-field loop over `allFieldsDefs`). -/
def diff (cur prev : List Nat) : List Nat := diffFields allFieldsDefs cur prev

/-- A `Record` as handed to the output channel: mode flags and fields
(the timestamp plays no role in the claims). -/
structure PRecord where
  isCumul : Bool
  isRel : Bool
  fields : List Nat
deriving DecidableEq

/-- The body of `Poll`, abstracted over the per-tick outcome of
`recordPtr.parse()` (the list `parses`; `.error` is a failed parse).
Mirrors the source: `i` is the loop counter (it advances on failed ticks
too, because `continue` still runs the `i++` post-statement), `old` is
`oldRecordPtr`'s field vector, a failed parse skips emission and the
buffer swap.  The second component records whether `rel` panicked
(division by zero), which crashes the goroutine. -/
def pollLoop (cumul relMode : Bool) :
    Nat → List Nat → List (Except String (List Nat)) → List PRecord × Bool
  | _, _, [] => ([], false)
  | i, old, .error _ :: rest => pollLoop cumul relMode (i + 1) old rest
  | i, old, .ok f :: rest =>
    if cumul then
      let r := pollLoop cumul relMode (i + 1) old rest
      (⟨true, false, f⟩ :: r.1, r.2)
    else if i < 1 then
      let r := pollLoop cumul relMode (i + 1) f rest
      (⟨true, false, f⟩ :: r.1, r.2)
    else
      let d := diff f old
      if relMode then
        match rel d with
        | none => ([], true)
        | some d2 =>
          let r := pollLoop cumul relMode (i + 1) f rest
          (⟨false, true, d2⟩ :: r.1, r.2)
      else
        let r := pollLoop cumul relMode (i + 1) f rest
        (⟨false, false, d⟩ :: r.1, r.2)

/-- `Poll`'s emissions: the loop starts at tick 0 with the zeroed
`oldRecordPtr` allocated by `newRecord`. -/
def pollEmits (cumul relMode : Bool) (parses : List (Except String (List Nat))) :
    List PRecord × Bool :=
  pollLoop cumul relMode 0 (List.replicate fieldsCount 0) parses

/-- `makeHeader`: the literal marker `"h"` followed by each field's
header text in declaration order. -/
def makeHeader (fdl : List FieldDef) : List String :=
  "h" :: fdl.map FieldDef.render

/-- The package-level `Header`. -/
def Header : List String := makeHeader allFieldsDefs

/-- The target-time recurrence of `Poll`'s drift-corrected scheduler:
tick 0 samples at `t0 = time.Now()`; afterwards
`nextTime = lastTime.Add(period)` where `lastTime` is the previous tick's
target (not the time the sample actually ran). -/
def targetTimes (t0 period : Int) : Nat → Int
  | 0 => t0
  | n + 1 => targetTimes t0 period n + period

/-- The sleep before a tick: `toWait := nextTime.Sub(time.Now())`, and the
scheduler sleeps only `if toWait > 0`. -/
def sleepDuration (nextTime now : Int) : Int :=
  if nextTime - now > 0 then nextTime - now else 0

end Monitoring.Cpustat

namespace Monitoring.Netstat

/-!
## `src/internal/netstat/netstat.go` (multi-entity variant)
16 per-interface slots, all accumulators, no calculators. -/

def rxBytesIdx : Nat := 0
def fieldsCount : Nat := 16

/-- `allFieldsDefs` of netstat, in declaration order. -/
def allFieldsDefs : List FieldDef :=
  [⟨"rx", "bytes", true⟩, ⟨"rx", "packets", true⟩, ⟨"rx", "errs", true⟩,
   ⟨"rx", "drops", true⟩, ⟨"rx", "fifo", true⟩, ⟨"rx", "frame", true⟩,
   ⟨"rx", "compressed", true⟩, ⟨"rx", "multicast", true⟩,
   ⟨"tx", "bytes", true⟩, ⟨"tx", "packets", true⟩, ⟨"tx", "errs", true⟩,
   ⟨"tx", "drops", true⟩, ⟨"tx", "fifo", true⟩, ⟨"tx", "colls", true⟩,
   ⟨"tx", "carrier", true⟩, ⟨"tx", "compressed", true⟩]

/-- A netstat `Record`'s `fieldsMap`: interface key to field vector. -/
abbrev NetMap := List (List Char × List Nat)

/-- Association-list lookup in a `fieldsMap`. -/
def lookupIface : NetMap → List Char → Option (List Nat)
  | [], _ => none
  | (k, v) :: rest, key => if k = key then some v else lookupIface rest key

/-- `Record.getFields`: the interface's vector, or a fresh zero vector of
`fieldsCount` slots for a newly seen key. -/
def getFields (m : NetMap) (iface : List Char) : List Nat :=
  (lookupIface m iface).getD (List.replicate fieldsCount 0)

/-- Store an interface's vector (replacing an existing entry in place, or
appending a new key, matching `getFields`'s insert-on-miss). -/
def setIface : NetMap → List Char → List Nat → NetMap
  | [], k, v => [(k, v)]
  | (k0, v0) :: rest, k, v =>
    if k0 = k then (k0, v) :: rest else (k0, v0) :: setIface rest k v

/-- The token loop of netstat's `parseLineToFields`: the `i`-th token
after the interface prefix is written to slot `i` with no bound check, so
a line with more tokens than `fieldsCount` panics in Go (modelled as an
error). -/
def fillSeq : List (List Char) → Nat → List Nat → Except String (List Nat)
  | [], _, fs => .ok fs
  | tok :: toks, i, fs =>
    match goParseUint tok with
    | none => .error "invalid syntax"
    | some v =>
      if i < fs.length then fillSeq toks (i + 1) (fs.set i v)
      else .error "panic: index out of range"

/-- netstat's `Record.parseLineToFields`: lines whose first token does not
end in `':'` are skipped; otherwise the token minus the colon is the
interface key and the remaining tokens fill its vector. -/
def parseLineToFields (m : NetMap) (line : List Char) : Except String NetMap :=
  match goFields line with
  | [] => .error "panic: index out of range"
  | tok0 :: toks =>
    match tok0.getLast? with
    | some ':' =>
      let iface := tok0.dropLast
      match fillSeq toks 0 (getFields m iface) with
      | .error e => .error e
      | .ok fs => .ok (setIface m iface fs)
    | _ => .ok m

/-- Zero every existing vector of the (reused) record, as the top of
netstat's `Record.parse` does; keys are not removed. -/
def zeroed (m : NetMap) : NetMap :=
  m.map (fun kv => (kv.1, kv.2.map (fun _ => 0)))

/-- The line loop of netstat's `Record.parse`. -/
def scanLines : NetMap → List (List Char) → Except String NetMap
  | m, [] => .ok m
  | m, line :: rest =>
    match parseLineToFields m line with
    | .error e => .error e
    | .ok m2 => scanLines m2 rest

/-- netstat's `Record.parse` given the snapshot's lines (no field has a
calculator, so the final calculator loop does nothing). -/
def recordParse (m0 : NetMap) (lines : List (List Char)) : Except String NetMap :=
  scanLines (zeroed m0) lines

/-- netstat's `Record.diff` writing into a fresh diff record: it iterates
the current record's `fieldsMap`, reads the previous record's vector for
the same key through `getFields` (zero baseline for a new key), and
differences per field exactly as cpustat does. -/
def diff (cur prev : NetMap) : NetMap :=
  cur.map (fun kv => (kv.1, diffFields allFieldsDefs kv.2 (getFields prev kv.1)))

/-- netstat's `makeHeader`: an `interface` key column, the marker `"h"`,
then each field's header text. -/
def makeHeader (fdl : List FieldDef) : List String :=
  "interface" :: "h" :: fdl.map FieldDef.render

/-- The package-level `Header`. -/
def Header : List String := makeHeader allFieldsDefs

end Monitoring.Netstat

namespace Monitoring.Vmstat

/-!
## `vmstat/vmstat.go` (older single-record variant)
16 slots (no `cpu:max`), `cpu:total` summing all ten cpu slots, and a
scheduler that sleeps the fixed period instead of correcting drift. -/

def cpuTotalIdx : Nat := 5

/-- `allFieldsDefs` of vmstat, in declaration order. -/
def allFieldsDefs : List FieldDef :=
  [⟨"procs", "forks", true⟩, ⟨"procs", "running", false⟩,
   ⟨"procs", "blocked", false⟩, ⟨"intr", "total", true⟩,
   ⟨"ctxt", "total", true⟩, ⟨"cpu", "total", true⟩, ⟨"cpu", "user", true⟩,
   ⟨"cpu", "nice", true⟩, ⟨"cpu", "system", true⟩, ⟨"cpu", "idle", true⟩,
   ⟨"cpu", "iowait", true⟩, ⟨"cpu", "irq", true⟩, ⟨"cpu", "softirq", true⟩,
   ⟨"cpu", "steal", true⟩, ⟨"cpu", "guest", true⟩, ⟨"cpu", "guest_nice", true⟩]

/-- vmstat's `makeHeader`: marker then field texts (same as cpustat). -/
def makeHeader (fdl : List FieldDef) : List String :=
  "h" :: fdl.map FieldDef.render

/-- The package-level `VmstatHeader`. -/
def Header : List String := makeHeader allFieldsDefs

/-- The sample-time recurrence of vmstat's `Poll`: tick 0 samples at
`t0`; each later tick runs after the previous tick's parse (taking
`latency n`) followed by a fixed `time.Sleep(period)` — there is no
target-time computation, so the next sample time is the current time plus
the period. -/
def sampleTimes (t0 period : Int) (latency : Nat → Int) : Nat → Int
  | 0 => t0
  | n + 1 => sampleTimes t0 period latency n + latency n + period

end Monitoring.Vmstat

namespace Monitoring.CpustatOld

/-!
## `cpustat/cpustat.go` (older cpustat variant)
Same 16-slot layout as vmstat plus the relative transform; its
`Record.rel` divides by the total delta with no guard at all. -/

def cpuTotalIdx : Nat := 5

/-- The ten per-state cpu slots of the older layout (6..15). -/
def cpuIndices : List Nat := [6, 7, 8, 9, 10, 11, 12, 13, 14, 15]

/-- The loop of the older `Record.rel`: every per-state cpu slot is
replaced by `value * 100 / totalDelta` unconditionally, so a zero total
delta makes the very first division panic (modelled as `none`). -/
def relLoop : List Nat → List Nat → Option (List Nat)
  | [], fields => some fields
  | i :: is, fields =>
    if fields.getD cpuTotalIdx 0 = 0 then none
    else
      relLoop is
        (fields.set i (goUintMul (fields.getD i 0) 100 / fields.getD cpuTotalIdx 0))

/-- The older `Record.rel`. -/
def rel (fields : List Nat) : Option (List Nat) := relLoop cpuIndices fields

end Monitoring.CpustatOld

namespace Monitoring.Linescount

/-!
## `src/internal/linescount/linescount.go`
Counts lines (and their byte lengths) received from a stream; a line is
counted when the configured substring is empty, or when
`strings.Contains(line, substring) != invert`. -/

/-- Whether `needle` is a prefix of `hay` (byte-wise). -/
def hasPrefixL : List Char → List Char → Bool
  | [], _ => true
  | _ :: _, [] => false
  | a :: as, b :: bs => a == b && hasPrefixL as bs

/-- `strings.Contains(hay, needle)`: some suffix of `hay` starts with
`needle`. -/
def containsL (needle : List Char) : List Char → Bool
  | [] => hasPrefixL needle []
  | c :: rest => hasPrefixL needle (c :: rest) || containsL needle rest

/-- The per-line test and counter update of `Record.countlines`: a
counted line increments `count` by one and `bytes` by the line's byte
length (the delivered bytes include the trailing newline, because
`ReadStdin` hands over `ReadBytes('\n')` chunks verbatim). -/
def countlines (substring : List Char) (invert : Bool) (st : Nat × Nat)
    (lines : List (List Char)) : Nat × Nat :=
  lines.foldl
    (fun cb l =>
      if substring.isEmpty || (containsL substring l != invert) then
        (cb.1 + 1, cb.2 + l.length)
      else cb)
    st

/-- linescount's `makeHeader`: the literal three tokens. -/
def makeHeader : List String := ["h", "count", "bytes"]

/-- The package-level `Header`. -/
def Header : List String := makeHeader

end Monitoring.Linescount

example : Monitoring.goFields "cpu  4705 0 1120".toList =
    ["cpu".toList, "4705".toList, "0".toList, "1120".toList] := by decide

example : Monitoring.goParseUint "4705".toList = some 4705 := by decide

example : Monitoring.goParseUint "47x5".toList = none := by decide

example :
    Monitoring.Cpustat.recordParse 100 1
      ["cpu 10 20 30 40 0 0 0 0 0 0".toList, "intr 7".toList] =
    .ok [0, 0, 0, 7, 0, 100, 100, 10, 20, 30, 40, 0, 0, 0, 0, 0, 0] := by decide

namespace Monitoring.Netstat

/-- Scenario B, first snapshot: `eth0` with 1000 received bytes, plus an
`eth1` that will disappear (interface lines of `/proc/net/dev`). -/
def ethPrevLines : List (List Char) :=
  ["eth0: 1000 0 0 0 0 0 0 0 0 0 0 0 0 0 0 0".toList,
   "eth1: 7 0 0 0 0 0 0 0 0 0 0 0 0 0 0 0".toList]

/-- Scenario B, second snapshot: only `eth0`, now at 1500 bytes. -/
def ethCurLines : List (List Char) :=
  ["eth0: 1500 0 0 0 0 0 0 0 0 0 0 0 0 0 0 0".toList]

/-- The parse of the first snapshot. -/
def ethPrevRecord : NetMap :=
  [("eth0".toList, [1000, 0, 0, 0, 0, 0, 0, 0, 0, 0, 0, 0, 0, 0, 0, 0]),
   ("eth1".toList, [7, 0, 0, 0, 0, 0, 0, 0, 0, 0, 0, 0, 0, 0, 0, 0])]

/-- The parse of the second snapshot. -/
def ethCurRecord : NetMap :=
  [("eth0".toList, [1500, 0, 0, 0, 0, 0, 0, 0, 0, 0, 0, 0, 0, 0, 0, 0])]

end Monitoring.Netstat

namespace Monitoring

/-! ## Supporting lemmas -/

/-- `Record.diff` iterates the current record's map, so a key absent from
the current snapshot never reaches the diffed output. -/
theorem lookupIface_diff_eq_none (cur prev : Netstat.NetMap) (k : List Char)
    (h : Netstat.lookupIface cur k = none) :
    Netstat.lookupIface (Netstat.diff cur prev) k = none := by
  induction cur with
  | nil => rfl
  | cons kv rest ih =>
    obtain ⟨k0, v0⟩ := kv
    rw [Netstat.lookupIface] at h
    by_cases hk : k0 = k
    · rw [if_pos hk] at h
      exact absurd h (by simp)
    · rw [if_neg hk] at h
      simp only [Netstat.diff, List.map_cons]
      rw [Netstat.lookupIface, if_neg hk]
      exact ih h

/-- Go's wrapping `uint` subtraction agrees with ordinary subtraction when
no underflow happens, and produces the wraparound value otherwise. -/
theorem goUintSub_eq (a b : Nat) (ha : a < U64) (hb : b < U64) :
    goUintSub a b = if b ≤ a then a - b else a + (U64 - b) := by
  unfold goUintSub
  rw [Nat.mod_eq_of_lt ha, Nat.mod_eq_of_lt hb]
  by_cases h : b ≤ a
  · rw [if_pos h]
    have he : a + (U64 - b) = (a - b) + U64 := by omega
    rw [he, Nat.add_mod_right, Nat.mod_eq_of_lt (by omega)]
  · rw [if_neg h]
    exact Nat.mod_eq_of_lt (by omega)

/-- Pointwise description of `diffFields`. -/
theorem diffFields_getD (defs : List FieldDef) (cur prev : List Nat) (i : Nat)
    (hd : i < defs.length) (hc : i < cur.length) (hp : i < prev.length) :
    (diffFields defs cur prev).getD i 0 =
      if (defs.getD i ⟨"", "", false⟩).isAccumulator then
        goUintSub (cur.getD i 0) (prev.getD i 0)
      else cur.getD i 0 := by
  induction defs generalizing cur prev i with
  | nil => simp at hd
  | cons fd fds ih =>
    cases cur with
    | nil => simp at hc
    | cons c cs =>
      cases prev with
      | nil => simp at hp
      | cons p ps =>
        cases i with
        | zero => cases hacc : fd.isAccumulator <;> simp [diffFields, hacc]
        | succ n =>
          simp only [diffFields, List.getD_cons_succ]
          exact ih cs ps n (by simpa using hd) (by simpa using hc) (by simpa using hp)

end Monitoring

namespace Monitoring

/-- `relLoop` never touches a slot outside its index list. -/
theorem relLoop_getD_not_mem (is : List Nat) :
    ∀ fields out : List Nat, Cpustat.relLoop is fields = some out →
    ∀ j, j ∉ is → out.getD j 0 = fields.getD j 0 := by
  induction is with
  | nil =>
    intro fields out h j _
    simp only [Cpustat.relLoop, Option.some.injEq] at h
    rw [← h]
  | cons i is ih =>
    intro fields out h j hj
    have hji : j ≠ i := fun he => hj (he ▸ List.mem_cons_self i is)
    have hjs : j ∉ is := fun hm => hj (List.mem_cons_of_mem i hm)
    rw [Cpustat.relLoop] at h
    by_cases hv : fields.getD i 0 = 0
    · rw [if_neg (not_not_intro hv)] at h
      exact ih fields out h j hjs
    · rw [if_pos hv] at h
      by_cases ht : fields.getD Cpustat.cpuTotalIdx 0 = 0
      · rw [if_pos ht] at h
        exact absurd h (by simp)
      · rw [if_neg ht] at h
        rw [ih _ out h j hjs]
        simp [List.getD_eq_getElem?_getD, List.getElem?_set_ne (Ne.symm hji)]

/-- When the total-delta slot is non-zero, `relLoop` completes and maps
every listed slot to `value * 100 / total` (wrapping product), leaving
everything else alone. -/
theorem relLoop_some_of_total_ne (is : List Nat) :
    ∀ fields : List Nat, is.Nodup → Cpustat.cpuTotalIdx ∉ is →
    (∀ i ∈ is, i < fields.length) →
    fields.getD Cpustat.cpuTotalIdx 0 ≠ 0 →
    ∃ out, Cpustat.relLoop is fields = some out ∧ out.length = fields.length ∧
      (∀ j ∈ is, out.getD j 0 =
        goUintMul (fields.getD j 0) 100 / fields.getD Cpustat.cpuTotalIdx 0) ∧
      (∀ j, j ∉ is → out.getD j 0 = fields.getD j 0) := by
  induction is with
  | nil =>
    intro fields _ _ _ _
    exact ⟨fields, rfl, rfl, by simp, fun _ _ => rfl⟩
  | cons i is ih =>
    intro fields hnd hnt hlen ht
    obtain ⟨hni, hnd2⟩ : i ∉ is ∧ is.Nodup := by simpa [List.nodup_cons] using hnd
    have hit : i ≠ Cpustat.cpuTotalIdx := fun he => hnt (he ▸ List.mem_cons_self i is)
    have hnt2 : Cpustat.cpuTotalIdx ∉ is := fun hm => hnt (List.mem_cons_of_mem i hm)
    by_cases hv : fields.getD i 0 = 0
    · rw [Cpustat.relLoop, if_neg (not_not_intro hv)]
      obtain ⟨out, heq, hlen2, hin, hout⟩ :=
        ih fields hnd2 hnt2 (fun k hk => hlen k (List.mem_cons_of_mem i hk)) ht
      refine ⟨out, heq, hlen2, ?_, ?_⟩
      · intro j hj
        rcases List.mem_cons.mp hj with he | hm
        · subst he
          rw [hout j hni, hv]
          simp [goUintMul]
        · exact hin j hm
      · intro j hj
        exact hout j (fun hm => hj (List.mem_cons_of_mem i hm))
    · rw [Cpustat.relLoop, if_pos hv, if_neg ht]
      have hi : i < fields.length := hlen i (List.mem_cons_self i is)
      set fields2 :=
        fields.set i (goUintMul (fields.getD i 0) 100 / fields.getD Cpustat.cpuTotalIdx 0)
        with hf2
      have hlen2 : fields2.length = fields.length := by simp [hf2]
      have htot2 : fields2.getD Cpustat.cpuTotalIdx 0 = fields.getD Cpustat.cpuTotalIdx 0 := by
        simp [hf2, List.getD_eq_getElem?_getD, List.getElem?_set_ne hit]
      obtain ⟨out, heq, hlen3, hin, hout⟩ :=
        ih fields2 hnd2 hnt2
          (fun k hk => hlen2 ▸ hlen k (List.mem_cons_of_mem i hk))
          (htot2 ▸ ht)
      refine ⟨out, heq, by rw [hlen3, hlen2], ?_, ?_⟩
      · intro j hj
        rcases List.mem_cons.mp hj with he | hm
        · subst he
          rw [hout j hni, hf2]
          simp [List.getD_eq_getElem?_getD, List.getElem?_set_self, hi]
        · rw [hin j hm, htot2]
          have hji : i ≠ j := fun he => hni (he ▸ hm)
          rw [hf2]
          simp [List.getD_eq_getElem?_getD, List.getElem?_set_ne hji]
      · intro j hj
        have hji : i ≠ j := fun he => hj (he ▸ List.mem_cons_self i is)
        rw [hout j (fun hm => hj (List.mem_cons_of_mem i hm)), hf2]
        simp [List.getD_eq_getElem?_getD, List.getElem?_set_ne hji]

/-- When every listed slot is zero, `relLoop` is the identity (the guard
skips each slot, so no division happens at all). -/
theorem relLoop_all_zero (is : List Nat) :
    ∀ fields : List Nat, (∀ i ∈ is, fields.getD i 0 = 0) →
    Cpustat.relLoop is fields = some fields := by
  induction is with
  | nil => intro fields _; rfl
  | cons i is ih =>
    intro fields h
    rw [Cpustat.relLoop, if_neg (not_not_intro (h i (List.mem_cons_self i is)))]
    exact ih fields (fun k hk => h k (List.mem_cons_of_mem i hk))

/-- When the total-delta slot is zero but some listed slot is non-zero,
`relLoop` reaches a division by zero and panics. -/
theorem relLoop_none_of_total_zero (is : List Nat) :
    ∀ fields : List Nat, fields.getD Cpustat.cpuTotalIdx 0 = 0 →
    (∃ i ∈ is, fields.getD i 0 ≠ 0) → Cpustat.relLoop is fields = none := by
  induction is with
  | nil =>
    intro fields _ h
    simp at h
  | cons i is ih =>
    intro fields ht h
    by_cases hv : fields.getD i 0 = 0
    · rw [Cpustat.relLoop, if_neg (not_not_intro hv)]
      apply ih fields ht
      obtain ⟨k, hk, hkv⟩ := h
      rcases List.mem_cons.mp hk with he | hm
      · exact absurd (he ▸ hv) hkv
      · exact ⟨k, hm, hkv⟩
    · rw [Cpustat.relLoop, if_pos hv, if_pos ht]

end Monitoring

namespace Monitoring

/-- From tick 1 onwards the exact value of the loop counter does not
influence `pollLoop` (only the `i < 1` first-tick test reads it). -/
theorem pollLoop_index_irrelevant (cumul relMode : Bool) :
    ∀ (parses : List (Except String (List Nat))) (i j : Nat) (old : List Nat),
    1 ≤ i → 1 ≤ j →
    Cpustat.pollLoop cumul relMode i old parses =
      Cpustat.pollLoop cumul relMode j old parses := by
  intro parses
  induction parses with
  | nil => intro i j old _ _; rfl
  | cons p rest ih =>
    intro i j old hi hj
    cases p with
    | error e =>
      simp only [Cpustat.pollLoop]
      exact ih (i + 1) (j + 1) old (by omega) (by omega)
    | ok f =>
      have hi1 : ¬ i < 1 := by omega
      have hj1 : ¬ j < 1 := by omega
      simp only [Cpustat.pollLoop]
      by_cases hc : cumul
      · simp only [if_pos hc]
        rw [ih (i + 1) (j + 1) old (by omega) (by omega)]
      · simp only [if_neg hc, if_neg hi1, if_neg hj1]
        by_cases hr : relMode
        · simp only [if_pos hr]
          cases hrel : Cpustat.rel (Cpustat.diff f old) with
          | none => rfl
          | some d2 => rw [ih (i + 1) (j + 1) f (by omega) (by omega)]
        · simp only [if_neg hr]
          rw [ih (i + 1) (j + 1) f (by omega) (by omega)]

/-- A run consisting only of failed parses emits nothing and ends with the
channel closed normally (crash flag down): parse errors are never fatal. -/
theorem pollLoop_all_errors (cumul relMode : Bool) :
    ∀ (es : List String) (i : Nat) (old : List Nat),
    Cpustat.pollLoop cumul relMode i old (es.map .error) = ([], false) := by
  intro es
  induction es with
  | nil => intro i old; rfl
  | cons e es ih =>
    intro i old
    simp only [List.map_cons, Cpustat.pollLoop]
    exact ih (i + 1) old

end Monitoring

open Monitoring in
/-- C4: in delta or percent mode (`cumul = false`, either value of the
`rel` flag), the record emitted at tick 0 is exactly the raw cumulative
parse of tick 0 — mode flags `isCumul = true`, `isRel = false`, fields as
parsed — whatever baseline vector the scheduler holds: the diff and
relative stages are skipped on the first tick.  Stated for the loop from
an arbitrary baseline and for `Poll`'s actual entry state. -/
theorem claim4_first_tick_emits_raw (relMode : Bool) (f old : List Nat)
    (rest : List (Except String (List Nat))) :
    (Cpustat.pollLoop false relMode 0 old (.ok f :: rest)).1.head? =
      some ⟨true, false, f⟩ ∧
    (Cpustat.pollEmits false relMode (.ok f :: rest)).1.head? =
      some ⟨true, false, f⟩ := by
  constructor <;> simp [Cpustat.pollEmits, Cpustat.pollLoop]

open Monitoring in
/-- C5: when `recordPtr.parse()` fails mid-tick (source unavailable or a
malformed field), the scheduler skips emission for that tick only: the
baseline `old` is untouched and only the loop counter advances; from
tick 1 onwards the remaining emission stream is exactly as if the failed
tick had not happened; and a run of failed parses alone emits nothing and
still terminates normally — no parse error is fatal to the loop. -/
theorem claim5_parse_failure_skips_tick (cumul relMode : Bool) (i : Nat)
    (old : List Nat) (e : String) (rest : List (Except String (List Nat))) :
    Cpustat.pollLoop cumul relMode i old (.error e :: rest) =
      Cpustat.pollLoop cumul relMode (i + 1) old rest ∧
    (1 ≤ i →
      Cpustat.pollLoop cumul relMode i old (.error e :: rest) =
        Cpustat.pollLoop cumul relMode i old rest) ∧
    (∀ es : List String,
      Cpustat.pollLoop cumul relMode i old (es.map .error) = ([], false)) := by
  refine ⟨rfl, fun hi => ?_, fun es => pollLoop_all_errors cumul relMode es i old⟩
  exact pollLoop_index_irrelevant cumul relMode rest (i + 1) i old (by omega) hi

open Monitoring in
/-- Witness for C5: a failed tick-1 parse between two good ticks leaves
the stream identical to the run without the failure. -/
theorem claim5_parse_failure_skips_tick_witness :
    Cpustat.pollLoop false false 1 [1, 2]
        [.error "open /proc/stat: no such file or directory", .ok [3, 4]] =
      Cpustat.pollLoop false false 1 [1, 2] [.ok [3, 4]] :=
  (claim5_parse_failure_skips_tick false false 1 [1, 2]
    "open /proc/stat: no such file or directory" [.ok [3, 4]]).2.1 (by decide)

open Monitoring in
/-- C2 counterexample: the claim "when the total delta is zero, the fields
are left at their raw values and no division by zero occurs" is false.
`Record.rel` guards on each field being non-zero, not on the total: a delta
record with `cpu:guest` = 5 and `cpu:total` = 0 makes it divide by zero
(a Go runtime panic, modelled as `none`); the older cpustat variant even
panics on the all-zero delta of two identical snapshots.  The claimed
formula `delta * 100 / total` is also computed in wrapping 64-bit
arithmetic: with delta `2^63` and total 1, the stored percentage is 0, not
`2^63 * 100`. -/
theorem claim2_counterexample :
    Cpustat.rel [0, 0, 0, 0, 0, 0, 0, 0, 0, 0, 0, 0, 0, 0, 0, 5, 0] = none ∧
    CpustatOld.rel [0, 0, 0, 0, 0, 0, 0, 0, 0, 0, 0, 0, 0, 0, 0, 0] = none ∧
    Cpustat.rel [0, 0, 0, 0, 0, 0, 1, 9223372036854775808, 0, 0, 0, 0, 0, 0, 0, 0, 0] =
      some [0, 0, 0, 0, 0, 0, 1, 0, 0, 0, 0, 0, 0, 0, 0, 0, 0] ∧
    (9223372036854775808 * 100 / 1 : Nat) ≠ 0 :=
  ⟨by decide, by decide, by decide, by decide⟩

open Monitoring in
/-- C2 (amended): applied to a delta record, the relative transform maps
each per-state cpu slot with non-zero value to `value * 100 / totalDelta`
(the product taken modulo `2^64`, Go `uint` arithmetic) and leaves
zero-valued slots and all other slots unchanged.  Consequently: when the
total delta is non-zero every percentage slot equals the wrapped
`value * 100 / totalDelta` (zero slots included, since `0 * 100 / t = 0`);
when every percentage slot is zero the record is returned unchanged and no
division happens; but when the total delta is zero and some percentage
slot is non-zero the transform divides by zero (Go panic, `none`). -/
theorem claim2_relative_transform (fields : List Nat)
    (hlen : fields.length = Cpustat.fieldsCount) :
    (fields.getD Cpustat.cpuTotalIdx 0 ≠ 0 →
      ∃ out, Cpustat.rel fields = some out ∧
        (∀ j ∈ Cpustat.cpuIndices,
          out.getD j 0 =
            goUintMul (fields.getD j 0) 100 / fields.getD Cpustat.cpuTotalIdx 0) ∧
        (∀ j, j ∉ Cpustat.cpuIndices → out.getD j 0 = fields.getD j 0)) ∧
    ((∀ j ∈ Cpustat.cpuIndices, fields.getD j 0 = 0) →
      Cpustat.rel fields = some fields) ∧
    (fields.getD Cpustat.cpuTotalIdx 0 = 0 →
      (∃ j ∈ Cpustat.cpuIndices, fields.getD j 0 ≠ 0) →
      Cpustat.rel fields = none) := by
  have hbound : ∀ i ∈ Cpustat.cpuIndices, i < Cpustat.fieldsCount := by decide
  refine ⟨?_, ?_, ?_⟩
  · intro ht
    obtain ⟨out, heq, _, hin, hout⟩ :=
      relLoop_some_of_total_ne Cpustat.cpuIndices fields (by decide) (by decide)
        (fun i hi => hlen ▸ hbound i hi) ht
    exact ⟨out, heq, hin, hout⟩
  · exact relLoop_all_zero Cpustat.cpuIndices fields
  · exact relLoop_none_of_total_zero Cpustat.cpuIndices fields

open Monitoring in
/-- Witness for C2 at the spec's Scenario A delta (user 100, system 10,
idle 50, total 160): the transform yields user `100*100/160 = 62` and
leaves the total slot at 160. -/
theorem claim2_relative_transform_witness :
    ∃ out,
      Cpustat.rel [0, 0, 0, 0, 0, 0, 160, 100, 0, 10, 50, 0, 0, 0, 0, 0, 0] = some out ∧
      out.getD 7 0 = 62 ∧ out.getD 6 0 = 160 := by
  obtain ⟨out, heq, hin, hout⟩ :=
    (claim2_relative_transform [0, 0, 0, 0, 0, 0, 160, 100, 0, 10, 50, 0, 0, 0, 0, 0, 0]
      (by decide)).1 (by decide)
  refine ⟨out, heq, ?_, ?_⟩
  · rw [hin 7 (by decide)]
    decide
  · rw [hout 6 (by decide)]
    decide

open Monitoring in
/-- C9: the relative transform rewrites only the ten per-state cpu slots;
whenever it completes, every slot outside `cpuIndices` — in particular the
derived `cpu:total`, `cpu:max`, the three `procs` slots, `intr:total` and
`ctxt:total` — keeps its delta value unchanged. -/
theorem claim9_rel_frame_effect (d out : List Nat) (h : Cpustat.rel d = some out) :
    (∀ j, j ∉ Cpustat.cpuIndices → out.getD j 0 = d.getD j 0) ∧
    out.getD Cpustat.cpuTotalIdx 0 = d.getD Cpustat.cpuTotalIdx 0 ∧
    out.getD Cpustat.cpuMaxIdx 0 = d.getD Cpustat.cpuMaxIdx 0 ∧
    out.getD Cpustat.procsForksIdx 0 = d.getD Cpustat.procsForksIdx 0 ∧
    out.getD Cpustat.procsRunningIdx 0 = d.getD Cpustat.procsRunningIdx 0 ∧
    out.getD Cpustat.procsBlockedIdx 0 = d.getD Cpustat.procsBlockedIdx 0 ∧
    out.getD Cpustat.intrTotalIdx 0 = d.getD Cpustat.intrTotalIdx 0 ∧
    out.getD Cpustat.ctxtTotalIdx 0 = d.getD Cpustat.ctxtTotalIdx 0 := by
  have hfr := relLoop_getD_not_mem Cpustat.cpuIndices d out h
  exact ⟨fun j hj => hfr j hj, hfr _ (by decide), hfr _ (by decide), hfr _ (by decide),
    hfr _ (by decide), hfr _ (by decide), hfr _ (by decide), hfr _ (by decide)⟩

open Monitoring in
/-- Witness for C9 at the Scenario A delta: the total slot survives the
transform unchanged. -/
theorem claim9_rel_frame_effect_witness :
    ([0, 0, 0, 0, 0, 0, 160, 62, 0, 6, 31, 0, 0, 0, 0, 0, 0] : List Nat).getD 6 0 =
      ([0, 0, 0, 0, 0, 0, 160, 100, 0, 10, 50, 0, 0, 0, 0, 0, 0] : List Nat).getD 6 0 :=
  (claim9_rel_frame_effect
    [0, 0, 0, 0, 0, 0, 160, 100, 0, 10, 50, 0, 0, 0, 0, 0, 0]
    [0, 0, 0, 0, 0, 0, 160, 62, 0, 6, 31, 0, 0, 0, 0, 0, 0] (by decide)).2.1

open Monitoring in
/-- C1: for snapshots of identical shape, the diff engine (the shared
per-field loop of cpustat's and netstat's `Record.diff`, embedded as
`diffFields`) maps every accumulator slot to `cur - prev` in unsigned
64-bit arithmetic — plain difference when `prev ≤ cur`, the wraparound
value `cur + (2^64 - prev)` when `cur < prev`, never masked or clamped —
and passes every instantaneous slot's current value through unchanged,
regardless of the previous value. -/
theorem claim1_diff_field_semantics (defs : List FieldDef) (cur prev : List Nat)
    (i : Nat) (hd : i < defs.length) (hc : i < cur.length) (hp : i < prev.length)
    (hbc : cur.getD i 0 < U64) (hbp : prev.getD i 0 < U64) :
    ((defs.getD i ⟨"", "", false⟩).isAccumulator = true →
      (diffFields defs cur prev).getD i 0 =
        if prev.getD i 0 ≤ cur.getD i 0 then cur.getD i 0 - prev.getD i 0
        else cur.getD i 0 + (U64 - prev.getD i 0)) ∧
    ((defs.getD i ⟨"", "", false⟩).isAccumulator = false →
      (diffFields defs cur prev).getD i 0 = cur.getD i 0) := by
  have h := diffFields_getD defs cur prev i hd hc hp
  constructor
  · intro hacc
    rw [h, if_pos hacc, goUintSub_eq _ _ hbc hbp]
  · intro hacc
    rw [h, hacc]
    simp

open Monitoring in
/-- Witness for C1 at cpustat's field schema: slot 7 (`cpu:user`, an
accumulator) wraps around when the counter decreases from 9 to 5, and
slot 1 (`procs:running`, instantaneous) passes the current value 3
through over a previous value 8. -/
theorem claim1_diff_field_semantics_witness :
    (diffFields Cpustat.allFieldsDefs
        [0, 3, 0, 0, 0, 0, 0, 5, 0, 0, 0, 0, 0, 0, 0, 0, 0]
        [0, 8, 0, 0, 0, 0, 0, 9, 0, 0, 0, 0, 0, 0, 0, 0, 0]).getD 7 0 =
      5 + (U64 - 9) ∧
    (diffFields Cpustat.allFieldsDefs
        [0, 3, 0, 0, 0, 0, 0, 5, 0, 0, 0, 0, 0, 0, 0, 0, 0]
        [0, 8, 0, 0, 0, 0, 0, 9, 0, 0, 0, 0, 0, 0, 0, 0, 0]).getD 1 0 = 3 := by
  constructor
  · have h := claim1_diff_field_semantics Cpustat.allFieldsDefs
      [0, 3, 0, 0, 0, 0, 0, 5, 0, 0, 0, 0, 0, 0, 0, 0, 0]
      [0, 8, 0, 0, 0, 0, 0, 9, 0, 0, 0, 0, 0, 0, 0, 0, 0] 7
      (by decide) (by decide) (by decide) (by norm_num [U64]) (by norm_num [U64])
    rw [h.1 (by decide)]
    norm_num [U64]
  · have h := claim1_diff_field_semantics Cpustat.allFieldsDefs
      [0, 3, 0, 0, 0, 0, 0, 5, 0, 0, 0, 0, 0, 0, 0, 0, 0]
      [0, 8, 0, 0, 0, 0, 0, 9, 0, 0, 0, 0, 0, 0, 0, 0, 0] 1
      (by decide) (by decide) (by decide) (by norm_num [U64]) (by norm_num [U64])
    exact h.2 (by decide)

open Monitoring in
/-- C3: for the multi-entity network source, parsing the two Scenario B
snapshots and diffing them yields `rx:bytes = 500` for `eth0`, while
`eth1` — present only in the first snapshot, its vector zeroed only if its
key survives in a reused buffer — is absent from the diffed output; in
general any key absent from the current snapshot's map is absent from the
diff, because `Record.diff` iterates only the current map's keys. -/
theorem claim3_netstat_diff_scenario :
    Netstat.recordParse [] Netstat.ethPrevLines = .ok Netstat.ethPrevRecord ∧
    Netstat.recordParse [] Netstat.ethCurLines = .ok Netstat.ethCurRecord ∧
    (Netstat.lookupIface (Netstat.diff Netstat.ethCurRecord Netstat.ethPrevRecord)
        "eth0".toList).map (fun fs => fs.getD Netstat.rxBytesIdx 0) = some 500 ∧
    Netstat.lookupIface (Netstat.diff Netstat.ethCurRecord Netstat.ethPrevRecord)
      "eth1".toList = none ∧
    (∀ (cur prev : Netstat.NetMap) (k : List Char),
      Netstat.lookupIface cur k = none →
      Netstat.lookupIface (Netstat.diff cur prev) k = none) := by
  refine ⟨by decide, by decide, by decide, by decide, ?_⟩
  exact fun cur prev k h => lookupIface_diff_eq_none cur prev k h

open Monitoring in
/-- Witness for C3's general clause at a concrete key: `wlan0` is absent
from the current snapshot, hence absent from the diff. -/
theorem claim3_netstat_diff_scenario_witness :
    Netstat.lookupIface (Netstat.diff Netstat.ethCurRecord Netstat.ethPrevRecord)
      "wlan0".toList = none :=
  claim3_netstat_diff_scenario.2.2.2.2 Netstat.ethCurRecord Netstat.ethPrevRecord
    "wlan0".toList (by decide)

namespace Monitoring

/-- A token at a populated position that fails `ParseUint` makes
`fillFields` abort with an error, whatever the target vector. -/
theorem fillFields_error_of_bad_token (js : List Nat) :
    ∀ (toks : List (List Char)) (t : List Nat) (k : Nat),
    k < js.length → k < toks.length → goParseUint (toks.getD k []) = none →
    ∃ e, Cpustat.fillFields js toks t = .error e := by
  induction js with
  | nil =>
    intro toks t k hk _ _
    simp at hk
  | cons j js ih =>
    intro toks t k hk htk hbad
    cases toks with
    | nil => simp at htk
    | cons s ss =>
      cases k with
      | zero =>
        simp only [List.getD_cons_zero] at hbad
        exact ⟨"invalid syntax", by simp only [Cpustat.fillFields, hbad]⟩
      | succ k =>
        cases hp : goParseUint s with
        | none => exact ⟨"invalid syntax", by simp only [Cpustat.fillFields, hp]⟩
        | some v =>
          simp only [Cpustat.fillFields, hp]
          exact ih ss (t.set j v) k (by simpa using hk) (by simpa using htk)
            (by simpa using hbad)

/-- Lifting of the previous lemma to `parseLineToFields`: a matched line
containing a malformed token at a populated position fails, whatever the
target vector. -/
theorem parseLineToFields_error_of_bad_token (ld : Cpustat.GoLineDef)
    (line : List Char) (toks : List (List Char)) (k : Nat)
    (hf : goFields line = ld.pfx :: toks)
    (hk : k < ld.fieldsIdx.length) (htk : k < toks.length)
    (hbad : goParseUint (toks.getD k []) = none) :
    ∀ t : List Nat, ∃ e, Cpustat.parseLineToFields ld line t = .error e := by
  intro t
  obtain ⟨e, he⟩ := fillFields_error_of_bad_token ld.fieldsIdx toks t k hk htk hbad
  refine ⟨e, ?_⟩
  simp only [Cpustat.parseLineToFields, hf, if_pos rfl]
  exact he

/-- A registered line that fails `parseLineToFields` (for every target)
makes the whole snapshot scan fail, wherever it sits in the input. -/
theorem scanLines_error_of_line (lines : List (List Char)) :
    ∀ (t : List Nat) (line : List Char) (ld : Cpustat.GoLineDef),
    line ∈ lines →
    Cpustat.lookupLineDef (Cpustat.linePrefixOf line) = some ld →
    (∀ t2 : List Nat, ∃ e, Cpustat.parseLineToFields ld line t2 = .error e) →
    ∃ e, Cpustat.scanLines lines t = .error e := by
  induction lines with
  | nil =>
    intro t line ld h
    simp at h
  | cons l ls ih =>
    intro t line ld hmem hlk herr
    rcases List.mem_cons.mp hmem with he | hm
    · subst he
      obtain ⟨e, hee⟩ := herr t
      exact ⟨e, by simp only [Cpustat.scanLines, hlk, hee]⟩
    · cases hlk0 : Cpustat.lookupLineDef (Cpustat.linePrefixOf l) with
      | none =>
        obtain ⟨e, hee⟩ := ih t line ld hm hlk herr
        exact ⟨e, by simp only [Cpustat.scanLines, hlk0]; exact hee⟩
      | some ld0 =>
        cases hpl : Cpustat.parseLineToFields ld0 l t with
        | error e => exact ⟨e, by simp only [Cpustat.scanLines, hlk0, hpl]⟩
        | ok t2 =>
          obtain ⟨e, hee⟩ := ih t2 line ld hm hlk herr
          exact ⟨e, by simp only [Cpustat.scanLines, hlk0, hpl]; exact hee⟩

/-- Short matched lines: when the tokens run out before the declared
slots, `fillFields` stops early with no error and the unpopulated slots
keep their previous contents. -/
theorem fillFields_ok_of_short (js : List Nat) :
    ∀ (toks : List (List Char)) (t : List Nat),
    toks.length < js.length →
    (∀ k, k < toks.length → goParseUint (toks.getD k []) ≠ none) →
    ∃ t2, Cpustat.fillFields js toks t = .ok t2 ∧
      ∀ j, j ∉ js.take toks.length → t2.getD j 0 = t.getD j 0 := by
  induction js with
  | nil =>
    intro toks t h _
    simp at h
  | cons j js ih =>
    intro toks t hlt hgood
    cases toks with
    | nil => exact ⟨t, rfl, by simp⟩
    | cons s ss =>
      have h0 := hgood 0 (by simp)
      cases hp : goParseUint s with
      | none => exact absurd (by simpa using hp) (by simpa using h0)
      | some v =>
        obtain ⟨t2, heq, hfr⟩ := ih ss (t.set j v) (by simpa using hlt)
          (fun k hk => by
            have hgk := hgood (k + 1) (by simpa using hk)
            simpa using hgk)
        refine ⟨t2, by simp only [Cpustat.fillFields, hp]; exact heq, ?_⟩
        intro j2 hj2
        rw [List.length_cons, List.take_succ_cons] at hj2
        have hj2a : j2 ≠ j := fun he => hj2 (he ▸ List.mem_cons_self j _)
        have hj2b : j2 ∉ js.take ss.length := fun hmm2 => hj2 (List.mem_cons_of_mem j hmm2)
        rw [hfr j2 hj2b]
        simp [List.getD_eq_getElem?_getD, List.getElem?_set_ne (Ne.symm hj2a)]

end Monitoring

open Monitoring in
/-- C6: during snapshot parsing, (a) a token that fails to parse as a
base-10 unsigned integer in a populated position of a registered line
aborts parsing of the entire snapshot with an error, while (b) a matched
line with fewer tokens than its `lineDef` declares stops populating that
line early — the remaining declared slots keep their previous contents —
and produces no error. -/
theorem claim6_malformed_aborts_short_tolerated
    (clkTck nprocs : Nat) (lines : List (List Char)) (line : List Char)
    (ld : Cpustat.GoLineDef) (toks : List (List Char)) :
    (line ∈ lines →
      Cpustat.lookupLineDef (Cpustat.linePrefixOf line) = some ld →
      goFields line = ld.pfx :: toks →
      (∃ k, k < ld.fieldsIdx.length ∧ k < toks.length ∧
        goParseUint (toks.getD k []) = none) →
      ∃ e, Cpustat.recordParse clkTck nprocs lines = .error e) ∧
    (goFields line = ld.pfx :: toks →
      toks.length < ld.fieldsIdx.length →
      (∀ k, k < toks.length → goParseUint (toks.getD k []) ≠ none) →
      ∀ t : List Nat, ∃ t2, Cpustat.parseLineToFields ld line t = .ok t2 ∧
        ∀ j, j ∉ ld.fieldsIdx.take toks.length → t2.getD j 0 = t.getD j 0) := by
  constructor
  · intro hmem hlk hf hbad
    obtain ⟨k, hk, htk, hbadk⟩ := hbad
    obtain ⟨e, he⟩ := scanLines_error_of_line lines (List.replicate Cpustat.fieldsCount 0)
      line ld hmem hlk (parseLineToFields_error_of_bad_token ld line toks k hf hk htk hbadk)
    exact ⟨e, by simp only [Cpustat.recordParse, he]⟩
  · intro hf hshort hgood t
    obtain ⟨t2, heq, hfr⟩ := fillFields_ok_of_short ld.fieldsIdx toks t hshort hgood
    refine ⟨t2, ?_, hfr⟩
    simp only [Cpustat.parseLineToFields, hf, if_pos rfl]
    exact heq

open Monitoring in
/-- Witness for C6: the malformed `cpu` line `"cpu 1 x"` aborts the whole
snapshot parse, while the short (two-token) `cpu` line `"cpu 1 2"` parses
without error and leaves `cpu:system` (slot 9, its third declared slot)
untouched. -/
theorem claim6_malformed_aborts_short_tolerated_witness :
    (∃ e, Cpustat.recordParse 100 1 ["cpu 1 x".toList] = .error e) ∧
    (∃ t2, Cpustat.parseLineToFields ⟨"cpu".toList, Cpustat.cpuIndices⟩
        "cpu 1 2".toList (List.replicate 17 0) = .ok t2 ∧ t2.getD 9 0 = 0) := by
  constructor
  · exact (claim6_malformed_aborts_short_tolerated 100 1 ["cpu 1 x".toList]
      "cpu 1 x".toList ⟨"cpu".toList, Cpustat.cpuIndices⟩
      ["1".toList, "x".toList]).1 (by decide) (by decide) (by decide)
      ⟨1, by decide, by decide, by decide⟩
  · obtain ⟨t2, heq, hfr⟩ := (claim6_malformed_aborts_short_tolerated 100 1 []
      "cpu 1 2".toList ⟨"cpu".toList, Cpustat.cpuIndices⟩
      ["1".toList, "2".toList]).2 (by decide) (by decide) (by decide)
      (List.replicate 17 0)
    refine ⟨t2, heq, ?_⟩
    rw [hfr 9 (by decide)]
    decide

open Monitoring in
/-- C7 (amended): the drift-corrected schedulers (the cpustat, netstat and
linescount `Poll` loops share this timing code) compute each subsequent
target time as the previous tick's target plus the period — giving the
latency-independent closed form `t0 + n * period` — and never sleep a
negative duration: the sleep is zero whenever the computed target is
already past, so the next sample runs immediately.  The older vmstat
scheduler performs no such computation; see the counterexample. -/
theorem claim7_scheduler_timing (t0 period : Int) (n : Nat) (nextTime now : Int) :
    Cpustat.targetTimes t0 period (n + 1) = Cpustat.targetTimes t0 period n + period ∧
    Cpustat.targetTimes t0 period n = t0 + n * period ∧
    0 ≤ Cpustat.sleepDuration nextTime now ∧
    (nextTime ≤ now → Cpustat.sleepDuration nextTime now = 0) := by
  refine ⟨rfl, ?_, ?_, ?_⟩
  · induction n with
    | zero => simp [Cpustat.targetTimes]
    | succ m ih =>
      rw [Cpustat.targetTimes, ih]
      push_cast
      ring
  · unfold Cpustat.sleepDuration
    split <;> omega
  · intro h
    unfold Cpustat.sleepDuration
    rw [if_neg (by omega)]

open Monitoring in
/-- Witness for C7: with start 0 and period 10 the fourth target is 30,
and a target two units in the past sleeps zero. -/
theorem claim7_scheduler_timing_witness :
    Cpustat.targetTimes 0 10 3 = 30 ∧ Cpustat.sleepDuration 5 7 = 0 := by
  have h := claim7_scheduler_timing 0 10 3 5 7
  exact ⟨by rw [h.2.1]; norm_num, h.2.2.2 (by norm_num)⟩

open Monitoring in
/-- C7 counterexample: the claim is false of vmstat's `Poll` (one of its
cited sources), which sleeps the fixed period after each tick instead of
computing a target: with period 10 and a tick-0 parse latency of 1 the
second sample runs at time 11 — the current time after tick 0 plus the
period — not at the target-based `t0 + period = 10`. -/
theorem claim7_counterexample :
    Vmstat.sampleTimes 0 10 (fun _ => 1) 1 = 11 ∧
    Vmstat.sampleTimes 0 10 (fun _ => 1) 1 ≠ Cpustat.targetTimes 0 10 1 ∧
    Vmstat.sampleTimes 0 10 (fun _ => 1) 1 = (0 + 1) + 10 := by
  refine ⟨rfl, by decide, rfl⟩

open Monitoring in
/-- C8 counterexample: the claim fails for netstat: its header carries an
extra leading `interface` key-column token before the marker, so the token
count of the rendered header line excluding one leading marker token is
17, not the declared field count 16. -/
theorem claim8_counterexample :
    (goFields (goJoin Netstat.Header)).length - 1 ≠ Netstat.allFieldsDefs.length := by
  decide

open Monitoring in
/-- C8 (amended): for the schema-driven tools the rendered header line
splits into the marker token `h` followed by exactly one token per
declared field — `category:name/a` for an accumulator, `category:name/i`
for an instantaneous field, in declaration order — except that netstat's
header starts with an additional `interface` key-column token before the
marker (token count = declared fields + 2), and the linescount header is
the literal `h count bytes`. -/
theorem claim8_header_tokens :
    goFields (goJoin Cpustat.Header) = Cpustat.Header.map String.toList ∧
    Cpustat.Header = "h" :: Cpustat.allFieldsDefs.map FieldDef.render ∧
    Cpustat.Header =
      ["h", "procs:forks/a", "procs:running/i", "procs:blocked/i", "intr:total/a",
       "ctxt:total/a", "cpu:max/i", "cpu:total/a", "cpu:user/a", "cpu:nice/a",
       "cpu:system/a", "cpu:idle/a", "cpu:iowait/a", "cpu:irq/a", "cpu:softirq/a",
       "cpu:steal/a", "cpu:guest/a", "cpu:guest_nice/a"] ∧
    Cpustat.Header.length = 1 + Cpustat.allFieldsDefs.length ∧
    goFields (goJoin Netstat.Header) = Netstat.Header.map String.toList ∧
    Netstat.Header = "interface" :: "h" :: Netstat.allFieldsDefs.map FieldDef.render ∧
    Netstat.Header.length = 2 + Netstat.allFieldsDefs.length ∧
    goFields (goJoin Vmstat.Header) = Vmstat.Header.map String.toList ∧
    Vmstat.Header = "h" :: Vmstat.allFieldsDefs.map FieldDef.render ∧
    Vmstat.Header.length = 1 + Vmstat.allFieldsDefs.length ∧
    Linescount.Header = ["h", "count", "bytes"] := by
  refine ⟨by decide, rfl, by decide, by decide, by decide, rfl, by decide, by decide,
    rfl, by decide, rfl⟩

open Monitoring in
/-- C10: with the empty configured substring, `countlines` counts every
delivered line — `count` rises by one and `bytes` by the line's byte
length (the delivered chunk includes its trailing newline) — regardless
of the invert flag; the flag can therefore only influence runs with a
non-empty substring. -/
theorem claim10_empty_substring_counts_all (invert : Bool)
    (lines : List (List Char)) (c b : Nat) :
    Linescount.countlines [] invert (c, b) lines =
      (c + lines.length, b + (lines.map List.length).sum) := by
  induction lines generalizing c b with
  | nil => simp [Linescount.countlines]
  | cons l ls ih =>
    have hstep : Linescount.countlines [] invert (c, b) (l :: ls) =
        Linescount.countlines [] invert (c + 1, b + l.length) ls := by
      simp [Linescount.countlines]
    rw [hstep, ih]
    simp only [List.map_cons, List.sum_cons, List.length_cons, Prod.mk.injEq]
    constructor <;> omega
